import Mathlib

/-!
Verification of the Slovak road cost-benefit analysis engine
(`pycba/roads/svk/OPIIv3p0/roadcba.py`) against its specification.

Shallow embedding conventions:
* a pandas DataFrame whose columns are evaluation years is a `DF`,
  a list of rows, each row a list of rationals (one per year column);
  rows of interacting frames are assumed index-aligned, as pandas
  aligns them by (multi-)index before elementwise arithmetic;
* floating point numbers are modelled by `ℚ`; the places where the
  source relies on IEEE special values (`inf`, `NaN`) are modelled
  explicitly with `Option` (see `safeDiv`, `remRatio`);
* `DataFrame.sum()` (column-wise sum over rows) is `colSum`;
* elementwise products of aligned frames are `dfProd`.
-/

/-- A pandas DataFrame restricted to its year columns: list of rows. -/
abbrev DF := List (List ℚ)

/-- A year-indexed series (one value per evaluation year). -/
abbrev Series := List ℚ

/-- Column-wise sum of a DataFrame over its rows (`df.sum()` in pandas,
axis 0), for `n` year columns; absent entries count as 0. -/
def colSum (n : ℕ) (A : DF) : Series :=
  (List.range n).map (fun j => (A.map (fun r => r.getD j 0)).sum)

/-- Net present value as computed by `numpy_financial.npv`: the sum of
`values[i] / (1 + rate)^i`, the first entry undiscounted. Auxiliary
recursion carrying the running exponent. -/
def npvAux (r : ℚ) : List ℚ → ℕ → ℚ
  | [], _ => 0
  | c :: cs, k => c / (1 + r) ^ k + npvAux r cs (k + 1)

/-- Net present value `npf.npv(rate, values)`. -/
def npv (r : ℚ) (cf : List ℚ) : ℚ := npvAux r cf 0

/-- Rounding half to even (numpy rounding of `.round`). -/
def roundHalfEven (x : ℚ) : ℤ :=
  if x - ⌊x⌋ < 1 / 2 then ⌊x⌋
  else if 1 / 2 < x - ⌊x⌋ then ⌊x⌋ + 1
  else if ⌊x⌋ % 2 = 0 then ⌊x⌋ else ⌊x⌋ + 1

/-- Rounding to 2 decimal places, `.round(2)` of numpy/pandas. -/
def round2 (x : ℚ) : ℚ := (roundHalfEven (x * 100) : ℚ) / 100

lemma roundHalfEven_intCast (m : ℤ) : roundHalfEven ((m : ℚ)) = m := by
  unfold roundHalfEven
  rw [Int.floor_intCast]
  norm_num

lemma round2_eq (x : ℚ) (m : ℤ) (h : x * 100 = (m : ℚ)) :
    round2 x = (m : ℚ) / 100 := by
  unfold round2
  rw [h, roundHalfEven_intCast]

/-- Embedding of the ledger `df_eco` of `compute_economic_indicators`:
`concat([-NC rows, NB rows]).round(2)` (cost rows negated, then the
whole table rounded to 2 decimals); cost rows come first. -/
def dfEco (NC NB : DF) : DF :=
  NC.map (fun r => r.map (fun x => round2 (-x))) ++
    NB.map (fun r => r.map round2)

/-- Column-wise sum of the ledger, `df_eco.sum()`. -/
def ledgerSeries (n : ℕ) (NC NB : DF) : Series := colSum n (dfEco NC NB)

/-- Embedding of `self.ENPV = npf.npv(self.r_eco, self.df_eco.sum())`. -/
def computeENPV (r : ℚ) (n : ℕ) (NC NB : DF) : ℚ :=
  npv r (ledgerSeries n NC NB)

/-- Defining property of `npf.irr`: a rate is an internal rate of return
of a cash-flow series precisely when the NPV at that rate is zero; the
source computes `self.ERR = npf.irr(self.df_eco.sum())`. -/
def isInternalRateOfReturn (cf : List ℚ) (r : ℚ) : Prop := npv r cf = 0

/-- Embedding of `self.EBCR`: per-row NPVs of the ledger rounded to 2
decimals (`df_enpv`), then the sum over the benefit rows divided by the
negated sum over the cost rows. -/
def computeEBCR (r : ℚ) (NC NB : DF) : ℚ :=
  let enpvRows := (dfEco NC NB).map (fun row => round2 (npv r row))
  (enpvRows.drop NC.length).sum / -(enpvRows.take NC.length).sum

/-- C2. `compute_economic_indicators` computes ENPV as the NPV of the
column-wise sum of the ledger built from the negated net-cost rows and
the net-benefit rows, ERR as the IRR of that same summed series, and
EBCR as the NPV of the benefit rows divided by the negated NPV of the
cost rows; for the ledger with cost row `[-100, 0, 0]` (net cost
`[100, 0, 0]`) and benefit row `[0, 0, 121]` at a 10% economic discount
rate, ENPV is 0, 10% is an internal rate of return of the summed series,
and EBCR is 1. -/
theorem claim_C2_economic_indicators :
    (∀ (r : ℚ) (n : ℕ) (NC NB : DF),
      computeENPV r n NC NB = npv r (colSum n (dfEco NC NB))) ∧
    (∀ (r : ℚ) (NC NB : DF),
      computeEBCR r NC NB =
        (((dfEco NC NB).map (fun row => round2 (npv r row))).drop NC.length).sum /
          -(((dfEco NC NB).map (fun row => round2 (npv r row))).take NC.length).sum) ∧
    dfEco [[100, 0, 0]] [[0, 0, 121]] = [[-100, 0, 0], [0, 0, 121]] ∧
    computeENPV (1 / 10) 3 [[100, 0, 0]] [[0, 0, 121]] = 0 ∧
    isInternalRateOfReturn (ledgerSeries 3 [[100, 0, 0]] [[0, 0, 121]]) (1 / 10) ∧
    computeEBCR (1 / 10) [[100, 0, 0]] [[0, 0, 121]] = 1 := by
  have h1 : round2 (-(100 : ℚ)) = -100 := by
    rw [round2_eq (-(100 : ℚ)) (-10000) (by norm_num)]; norm_num
  have h2 : round2 (-(0 : ℚ)) = 0 := by
    rw [round2_eq (-(0 : ℚ)) 0 (by norm_num)]; norm_num
  have h3 : round2 (0 : ℚ) = 0 := by
    rw [round2_eq (0 : ℚ) 0 (by norm_num)]; norm_num
  have h4 : round2 (121 : ℚ) = 121 := by
    rw [round2_eq (121 : ℚ) 12100 (by norm_num)]; norm_num
  have h6 : round2 (100 : ℚ) = 100 := by
    rw [round2_eq (100 : ℚ) 10000 (by norm_num)]; norm_num
  have hnpv0 : npv (1 / 10) [-100, 0, 0] = -100 := by
    norm_num [npv, npvAux]
  have hnpv1 : npv (1 / 10) [(0 : ℚ), 0, 121] = 100 := by
    norm_num [npv, npvAux]
  refine ⟨fun _ _ _ _ => rfl, fun _ _ _ => rfl, ?_, ?_, ?_, ?_⟩
  · simp [dfEco, h1, h2, h3, h4]
  · norm_num [computeENPV, ledgerSeries, colSum, dfEco, npv, npvAux,
      List.range_succ, h1, h2, h3, h4]
  · norm_num [isInternalRateOfReturn, ledgerSeries, colSum, dfEco, npv,
      npvAux, List.range_succ, h1, h2, h3, h4]
  · simp only [computeEBCR, dfEco, List.map_cons, List.map_nil,
      List.map_append, h1, h2, h3, h4]
    norm_num [hnpv0, hnpv1, h6, h1]

/-- Backward leg of the cumulative CPI index built by `_wrangle_cpi`:
the value `n` years before the anchor. The backward loop sets
`index(y) = index(y+1) * (cpi(y) + 1.0)` for each year `y` below the
anchor. `c` is the per-year CPI series after the `fillna` step. -/
def cpiIndexBack (c : ℤ → ℚ) (anchor : ℤ) : ℕ → ℚ
  | 0 => 1
  | n + 1 => cpiIndexBack c anchor n * (c (anchor - (n + 1)) + 1)

/-- Forward leg of the cumulative CPI index: the value `n` years after
the anchor. The forward loop sets `index(y) = index(y-1) / (cpi(y-1) + 1.0)`
for each year `y` above the anchor. -/
def cpiIndexFwd (c : ℤ → ℚ) (anchor : ℤ) : ℕ → ℚ
  | 0 => 1
  | n + 1 => cpiIndexFwd c anchor n / (c (anchor + n) + 1)

/-- Cumulative CPI index of `_wrangle_cpi`: anchored at 1.0 in the
price-level year (`self.cpi.loc[self.yr_pl, "cpi_index"] = 1.0`) and
extended by the backward and forward loops. -/
def cpiIndex (c : ℤ → ℚ) (anchor y : ℤ) : ℚ :=
  if anchor ≤ y then cpiIndexFwd c anchor (y - anchor).toNat
  else cpiIndexBack c anchor (anchor - y).toNat

lemma cpiIndexBack_pos (c : ℤ → ℚ) (a : ℤ) (h : ∀ y, 0 < c y) :
    ∀ n, 0 < cpiIndexBack c a n
  | 0 => one_pos
  | n + 1 => by
    have hc := h (a - (n + 1))
    have ih := cpiIndexBack_pos c a h n
    exact mul_pos ih (by linarith)

lemma cpiIndexFwd_pos (c : ℤ → ℚ) (a : ℤ) (h : ∀ y, 0 < c y) :
    ∀ n, 0 < cpiIndexFwd c a n
  | 0 => one_pos
  | n + 1 => by
    have hc := h (a + n)
    have ih := cpiIndexFwd_pos c a h n
    exact div_pos ih (by linarith)

lemma cpiIndexBack_lt (c : ℤ → ℚ) (a : ℤ) (h : ∀ y, 0 < c y) (n : ℕ) :
    cpiIndexBack c a n < cpiIndexBack c a (n + 1) := by
  have hc := h (a - (n + 1))
  have hpos := cpiIndexBack_pos c a h n
  have : cpiIndexBack c a (n + 1) = cpiIndexBack c a n * (c (a - (n + 1)) + 1) := rfl
  rw [this]
  exact (lt_mul_iff_one_lt_right hpos).mpr (by linarith)

lemma cpiIndexFwd_lt (c : ℤ → ℚ) (a : ℤ) (h : ∀ y, 0 < c y) (n : ℕ) :
    cpiIndexFwd c a (n + 1) < cpiIndexFwd c a n := by
  have hc := h (a + n)
  have hpos := cpiIndexFwd_pos c a h n
  have : cpiIndexFwd c a (n + 1) = cpiIndexFwd c a n / (c (a + n) + 1) := rfl
  rw [this]
  exact div_lt_self hpos (by linarith)

lemma cpiIndex_eq_back (c : ℤ → ℚ) (a y : ℤ) (hy : y ≤ a) :
    cpiIndex c a y = cpiIndexBack c a (a - y).toNat := by
  rcases eq_or_lt_of_le hy with heq | hlt
  · subst heq
    simp [cpiIndex, cpiIndexFwd, cpiIndexBack]
  · unfold cpiIndex
    rw [if_neg (by omega)]

lemma cpiIndex_eq_fwd (c : ℤ → ℚ) (a y : ℤ) (hy : a ≤ y) :
    cpiIndex c a y = cpiIndexFwd c a (y - a).toNat := by
  unfold cpiIndex
  rw [if_pos hy]

/-- C3 counterexample. With the strictly positive CPI series constant at
`1/50` and anchor year 2020, the index does not strictly decrease moving
backward before the anchor (index(2018) = 1.02² is larger than
index(2019) = 1.02, not smaller), and it does not strictly increase
moving forward after the anchor (index(2022) = (1/1.02)² is smaller than
index(2021) = 1/1.02). The claim has both directions inverted. -/
theorem claim_C3_counterexample :
    ¬ (cpiIndex (fun _ : ℤ => (1 : ℚ) / 50) 2020 2018 <
        cpiIndex (fun _ : ℤ => (1 : ℚ) / 50) 2020 2019) ∧
    ¬ (cpiIndex (fun _ : ℤ => (1 : ℚ) / 50) 2020 2021 <
        cpiIndex (fun _ : ℤ => (1 : ℚ) / 50) 2020 2022) := by
  have h : ∀ y : ℤ, 0 < (fun _ : ℤ => (1 : ℚ) / 50) y := fun _ => by norm_num
  constructor
  · rw [cpiIndex_eq_back _ _ _ (by norm_num), cpiIndex_eq_back _ _ _ (by norm_num)]
    have e1 : ((2020 : ℤ) - 2018).toNat = 2 := by omega
    have e2 : ((2020 : ℤ) - 2019).toNat = 1 := by omega
    rw [e1, e2]
    exact lt_asymm (cpiIndexBack_lt (fun _ : ℤ => (1 : ℚ) / 50) 2020 h 1)
  · rw [cpiIndex_eq_fwd _ _ _ (by norm_num), cpiIndex_eq_fwd _ _ _ (by norm_num)]
    have e1 : ((2021 : ℤ) - 2020).toNat = 1 := by omega
    have e2 : ((2022 : ℤ) - 2020).toNat = 2 := by omega
    rw [e1, e2]
    exact lt_asymm (cpiIndexFwd_lt (fun _ : ℤ => (1 : ℚ) / 50) 2020 h 1)

/-- C3 (amended). The cumulative CPI index equals exactly 1.0 at the
anchor (price-level) year; when every year's CPI value is positive, the
index values strictly increase moving backward through the years before
the anchor and strictly decrease moving forward through the years after
the anchor (equivalently: the index is strictly decreasing in the year,
everywhere). -/
theorem claim_C3_amended (c : ℤ → ℚ) (a : ℤ) (h : ∀ y, 0 < c y) :
    cpiIndex c a a = 1 ∧
    (∀ y : ℤ, y < a → cpiIndex c a (y + 1) < cpiIndex c a y) ∧
    (∀ y : ℤ, a ≤ y → cpiIndex c a (y + 1) < cpiIndex c a y) := by
  refine ⟨by simp [cpiIndex, cpiIndexFwd], ?_, ?_⟩
  · intro y hy
    rw [cpiIndex_eq_back c a y hy.le, cpiIndex_eq_back c a (y + 1) (by omega)]
    have hn : (a - y).toNat = (a - (y + 1)).toNat + 1 := by omega
    rw [hn]
    exact cpiIndexBack_lt c a h _
  · intro y hy
    rw [cpiIndex_eq_fwd c a y hy, cpiIndex_eq_fwd c a (y + 1) (by omega)]
    have hn : ((y + 1) - a).toNat = (y - a).toNat + 1 := by omega
    rw [hn]
    exact cpiIndexFwd_lt c a h _

/-- C3 witness: the amended theorem applied to the constant CPI series
`1/50` with anchor 2020. -/
theorem claim_C3_witness :
    cpiIndex (fun _ : ℤ => (1 : ℚ) / 50) 2020 2020 = 1 ∧
    cpiIndex (fun _ : ℤ => (1 : ℚ) / 50) 2020 (2019 + 1) <
      cpiIndex (fun _ : ℤ => (1 : ℚ) / 50) 2020 2019 := by
  have h := claim_C3_amended (fun _ : ℤ => (1 : ℚ) / 50) 2020 (fun _ => by norm_num)
  exact ⟨h.1, h.2.1 2019 (by norm_num)⟩

lemma roundHalfEven_cases (x : ℚ) :
    roundHalfEven x = ⌊x⌋ ∨ roundHalfEven x = ⌊x⌋ + 1 := by
  unfold roundHalfEven
  split_ifs <;> simp

lemma le_roundHalfEven (m : ℤ) (x : ℚ) (h : (m : ℚ) ≤ x) :
    m ≤ roundHalfEven x := by
  have hf : m ≤ ⌊x⌋ := Int.le_floor.mpr h
  rcases roundHalfEven_cases x with hc | hc <;> omega

lemma roundHalfEven_le (m : ℤ) (x : ℚ) (h : x ≤ (m : ℚ)) :
    roundHalfEven x ≤ m := by
  have hfl : ⌊x⌋ ≤ m := by
    have := Int.floor_le_floor h
    simpa using this
  have hfx : (⌊x⌋ : ℚ) ≤ x := Int.floor_le x
  unfold roundHalfEven
  split_ifs with h1 h2 h3
  · exact hfl
  · by_contra hcon
    push_neg at hcon
    have hm : m ≤ ⌊x⌋ := by omega
    have hmq : (m : ℚ) ≤ (⌊x⌋ : ℚ) := by exact_mod_cast hm
    linarith
  · exact hfl
  · push_neg at h1
    by_contra hcon
    push_neg at hcon
    have hm : m ≤ ⌊x⌋ := by omega
    have hmq : (m : ℚ) ≤ (⌊x⌋ : ℚ) := by exact_mod_cast hm
    linarith

lemma round2_nonneg (x : ℚ) (h : 0 ≤ x) : 0 ≤ round2 x := by
  unfold round2
  have h0 : (0 : ℤ) ≤ roundHalfEven (x * 100) :=
    le_roundHalfEven 0 _ (by push_cast; nlinarith)
  have : (0 : ℚ) ≤ (roundHalfEven (x * 100) : ℚ) := by exact_mod_cast h0
  linarith

lemma round2_le_two (x : ℚ) (h : x ≤ 2) : round2 x ≤ 2 := by
  unfold round2
  have h200 : roundHalfEven (x * 100) ≤ 200 :=
    roundHalfEven_le 200 _ (by push_cast; linarith)
  have : (roundHalfEven (x * 100) : ℚ) ≤ 200 := by exact_mod_cast h200
  linarith

/-- Embedding of the remaining-usefulness ratio of `_compute_deterioration`:
`rem_ratio = where(replace, (2*lifetime - op_period)/lifetime,
(lifetime - op_period)/lifetime).round(2)`, with `fillna(1.0)` afterwards.
An item with infinite lifetime (`none`, the source's `np.inf`) is never
replaced and its ratio `(inf - P)/inf` is NaN in floating point, so the
`fillna` step sets it to exactly 1.0. -/
def remRatio (lifetime : Option ℚ) (opPeriod : ℚ) : ℚ :=
  match lifetime with
  | none => 1
  | some L =>
    if L ≤ opPeriod then round2 ((2 * L - opPeriod) / L)
    else round2 ((L - opPeriod) / L)

/-- Embedding of the replacement flag of `_compute_deterioration`:
`replace = np.where(lifetime <= op_period, 1, 0)`; `np.inf <= op_period`
is false, so infinite-lifetime items are never replaced. -/
def replaceFlag (lifetime : Option ℚ) (opPeriod : ℚ) : Bool :=
  match lifetime with
  | none => false
  | some L => decide (L ≤ opPeriod)

/-- C4 counterexample. An included item with lifetime 10 evaluated over a
25-year operation period is flagged for replacement and receives
`rem_ratio = (2*10 - 25)/10 = -0.5`, which lies outside `[0, 2]`: the
code applies no clamping, so the claimed invariant fails whenever the
operation period exceeds twice the lifetime. -/
theorem claim_C4_counterexample :
    ¬ (0 ≤ remRatio (some 10) 25 ∧ remRatio (some 10) 25 ≤ 2) := by
  have hval : remRatio (some 10) 25 = -(1 / 2) := by
    simp only [remRatio]
    rw [if_pos (by norm_num : (10 : ℚ) ≤ 25)]
    rw [round2_eq ((2 * 10 - 25) / 10) (-50) (by norm_num)]
    norm_num
  rw [hval]
  norm_num

/-- C4 (amended). For every included capex item with positive finite
lifetime whose operation period does not exceed twice the lifetime, the
remaining-value ratio lies in `[0, 2]`; for every item with infinite
lifetime it equals exactly 1.0. (The counterexample forces the
restriction `op_period ≤ 2 * lifetime`; the original claim asserted the
bounds unconditionally.) -/
theorem claim_C4_amended (L P : ℚ) (hL : 0 < L) (hP : 0 ≤ P)
    (h2 : P ≤ 2 * L) :
    (0 ≤ remRatio (some L) P ∧ remRatio (some L) P ≤ 2) ∧
    remRatio none P = 1 := by
  refine ⟨?_, rfl⟩
  simp only [remRatio]
  split_ifs with hrep
  · constructor
    · exact round2_nonneg _ (div_nonneg (by linarith) (by linarith))
    · refine round2_le_two _ ?_
      rw [div_le_iff₀ hL]
      linarith
  · push_neg at hrep
    constructor
    · exact round2_nonneg _ (div_nonneg (by linarith) (by linarith))
    · refine round2_le_two _ ?_
      rw [div_le_iff₀ hL]
      linarith

/-- C4 witness: the amended theorem at lifetime 30 and operation
period 25. -/
theorem claim_C4_witness :
    (0 ≤ remRatio (some 30) 25 ∧ remRatio (some 30) 25 ≤ 2) ∧
    remRatio none 25 = 1 :=
  claim_C4_amended 30 25 (by norm_num) (by norm_num) (by norm_num)

/-- Evaluation years `self.yrs`: `init_year, ..., init_year + N - 1`. -/
def evalYears (yrI : ℤ) (n : ℕ) : List ℤ :=
  (List.range n).map (fun k : ℕ => yrI + (k : ℤ))

/-- One item row of `compute_replacements`: the row is zero-filled
(`repl.loc[itm] = 0` over the year columns) and then the single cell at
the replacement year is set (`repl.loc[itm, yr_repl] = repl_value`). -/
def replRow (yrs : List ℤ) (yrRepl : ℤ) (v : ℚ) : List (ℤ × ℚ) :=
  yrs.map (fun y => (y, if y = yrRepl then v else 0))

/-- Embedding of `compute_replacements` for one capex item flagged
`replace=1` with integer lifetime `L`: the replacement year is
`yr_op - 1 + lifetime` with `yr_op = yr_i + N_yr_bld`, and the financial
and economic rows carry `C_fin_tot * replacement_cost_ratio` and
`C_eco_tot * replacement_cost_ratio` there. -/
def computeReplacements (yrI : ℤ) (nBld nOp : ℕ) (L : ℤ)
    (CfinTot CecoTot ratio : ℚ) : List (ℤ × ℚ) × List (ℤ × ℚ) :=
  let yrOp := yrI + nBld
  let yrRepl := yrOp - 1 + L
  (replRow (evalYears yrI (nBld + nOp)) yrRepl (CfinTot * ratio),
   replRow (evalYears yrI (nBld + nOp)) yrRepl (CecoTot * ratio))

lemma replRow_mem (yrs : List ℤ) (yrRepl : ℤ) (v : ℚ) (h : yrRepl ∈ yrs) :
    (yrRepl, v) ∈ replRow yrs yrRepl v := by
  simp only [replRow, List.mem_map]
  exact ⟨yrRepl, h, by simp⟩

lemma replRow_zero (yrs : List ℤ) (yrRepl : ℤ) (v : ℚ) :
    ∀ p ∈ replRow yrs yrRepl v, p.1 ≠ yrRepl → p.2 = 0 := by
  intro p hp hne
  simp only [replRow, List.mem_map] at hp
  obtain ⟨y, _, rfl⟩ := hp
  exact if_neg hne

lemma mem_evalYears (yrI : ℤ) (n : ℕ) (y : ℤ) (h1 : yrI ≤ y)
    (h2 : y < yrI + n) : y ∈ evalYears yrI n := by
  have hk : (y - yrI).toNat ∈ List.range n := List.mem_range.mpr (by omega)
  have he : yrI + (((y - yrI).toNat : ℕ) : ℤ) = y := by omega
  rw [evalYears]
  exact he ▸ List.mem_map_of_mem (fun k : ℕ => yrI + (k : ℤ)) hk

/-- C5. For every capex item flagged `replace=1` (lifetime at least one
year and at most the operation period), the replacement row holds the
value `total capex × replacement_cost_ratio` at the year
`yr_op - 1 + lifetime` — a year inside the evaluation period — and zero
at every other evaluation year, in both the financial and the economic
matrices. -/
theorem claim_C5_replacements (yrI : ℤ) (nBld nOp : ℕ) (L : ℤ)
    (CfinTot CecoTot ratio : ℚ) (hL1 : 1 ≤ L) (hL2 : L ≤ (nOp : ℤ)) :
    ((yrI + nBld - 1 + L, CfinTot * ratio) ∈
      (computeReplacements yrI nBld nOp L CfinTot CecoTot ratio).1) ∧
    (∀ p ∈ (computeReplacements yrI nBld nOp L CfinTot CecoTot ratio).1,
      p.1 ≠ yrI + nBld - 1 + L → p.2 = 0) ∧
    ((yrI + nBld - 1 + L, CecoTot * ratio) ∈
      (computeReplacements yrI nBld nOp L CfinTot CecoTot ratio).2) ∧
    (∀ p ∈ (computeReplacements yrI nBld nOp L CfinTot CecoTot ratio).2,
      p.1 ≠ yrI + nBld - 1 + L → p.2 = 0) := by
  have hmem : yrI + nBld - 1 + L ∈ evalYears yrI (nBld + nOp) :=
    mem_evalYears _ _ _ (by omega) (by push_cast; omega)
  exact ⟨replRow_mem _ _ _ hmem, replRow_zero _ _ _,
    replRow_mem _ _ _ hmem, replRow_zero _ _ _⟩

/-- C5 witness: an item with lifetime 10, built 2020-2021 (operation
starts 2022, 28 operation years), total financial capex 1000 and
replacement-cost ratio 1/2 is replaced exactly in 2031 at cost 500. -/
theorem claim_C5_witness :
    ((2031 : ℤ), (500 : ℚ)) ∈
      (computeReplacements 2020 2 28 10 1000 800 (1 / 2)).1 := by
  have h := (claim_C5_replacements 2020 2 28 10 1000 800 (1 / 2)
    (by norm_num) (by norm_num)).1
  norm_num at h
  exact h

/-- Embedding of the unit-cost recurrence of `_create_unit_cost_matrix`.
`unitCostSeries base el gdp y0 n` is the unit cost at year `y0 + n`,
where `base` is the (price-level-adjusted) value at the category's base
year `y0`. Each year's value is the preceding year's value, multiplied by
`(1.0 + gdp_growth[year-1] * gdp_growth_adjustment)` when the category
carries an elasticity column (`el = some e`); the helper loop applies
this recurrence up to `yr_i` and the evaluation-period loop continues the
identical recurrence for every later evaluation year. -/
def unitCostSeries (base : ℚ) (el : Option ℚ) (gdp : ℤ → ℚ) (y0 : ℤ) :
    ℕ → ℚ
  | 0 => base
  | n + 1 =>
    match el with
    | none => unitCostSeries base el gdp y0 n
    | some e => unitCostSeries base el gdp y0 n * (1 + gdp (y0 + n) * e)

/-- C6. For a unit-cost category carrying a `gdp_growth_adjustment`
column, if GDP growth is zero in every year then the unit-cost series is
constant over the whole extrapolation window — from the category's base
year through the last evaluation year — and equals the price-level
adjusted base value `raw * cpi_index[price_level]`. -/
theorem claim_C6_zero_growth_constant (raw : ℚ) (cpi : ℤ → ℚ)
    (anchor pl y0 : ℤ) (e : ℚ) (gdp : ℤ → ℚ) (hgdp : ∀ y, gdp y = 0) :
    ∀ n : ℕ,
      unitCostSeries (raw * cpiIndex cpi anchor pl) (some e) gdp y0 n =
        raw * cpiIndex cpi anchor pl := by
  intro n
  induction n with
  | zero => rfl
  | succ k ih => simp [unitCostSeries, hgdp, ih]

/-- C6 witness: the theorem at a concrete category (raw value 7, price
level 2019, anchor 2020, elasticity 9/10, zero growth, 5 years out). -/
theorem claim_C6_witness :
    unitCostSeries (7 * cpiIndex (fun _ : ℤ => (1 : ℚ) / 50) 2020 2019)
      (some (9 / 10)) (fun _ : ℤ => 0) 2019 5 =
      7 * cpiIndex (fun _ : ℤ => (1 : ℚ) / 50) 2020 2019 :=
  claim_C6_zero_growth_constant 7 (fun _ : ℤ => (1 : ℚ) / 50) 2020 2019 2019
    (9 / 10) (fun _ : ℤ => 0) (fun _ => rfl) 5

/-- Embedding of `_wrangle_capex` on one capex item row. A frame row is a
set of year-labelled columns (`cols`, labels unique in pandas) with the
row's cell values given by `f` (after `fillna(0)` every cell is a
number). When columns before `init_year` exist, their sum is added onto
the `init_year` cell (`C_fin[yr_i] += C_fin[yrs_bef].sum(1)`; a pandas
`KeyError`, modelled as `none`, if `init_year` is not a column) and the
frame is restricted to the columns from `init_year` on
(`C_fin = C_fin[yrs_aft]`). -/
def wrangleCapex (yri : ℤ) (cols : Finset ℤ) (f : ℤ → ℚ) :
    Option (Finset ℤ × (ℤ → ℚ)) :=
  let pre := cols.filter (fun y => y < yri)
  if pre = ∅ then some (cols, f)
  else if yri ∈ cols then
    some (cols.filter (fun y => ¬ y < yri),
      fun y => if y = yri then f yri + pre.sum f else f y)
  else none

/-- C7. On a capex row with columns before `init_year` (and with the
`init_year` column present, as pandas requires for the `+=`), the
wrangled row drops every pre-period column, adds the sum of the
pre-period cells onto the `init_year` cell, leaves every other cell
unchanged, and preserves the row total. -/
theorem claim_C7_wrangle_capex (yri : ℤ) (cols : Finset ℤ) (f : ℤ → ℚ)
    (hpre : (cols.filter (fun y => y < yri)).Nonempty) (hyi : yri ∈ cols) :
    ∃ cols2 f2, wrangleCapex yri cols f = some (cols2, f2) ∧
      (∀ y ∈ cols2, yri ≤ y) ∧
      f2 yri = f yri + (cols.filter (fun y => y < yri)).sum f ∧
      (∀ y : ℤ, y ≠ yri → f2 y = f y) ∧
      cols2.sum f2 = cols.sum f := by
  have hne : cols.filter (fun y => y < yri) ≠ ∅ :=
    Finset.nonempty_iff_ne_empty.mp hpre
  refine ⟨cols.filter (fun y => ¬ y < yri),
    fun y => if y = yri then f yri + (cols.filter (fun y => y < yri)).sum f
      else f y, ?_, ?_, ?_, ?_, ?_⟩
  · simp only [wrangleCapex]
    rw [if_neg hne, if_pos hyi]
  · intro y hy
    have := (Finset.mem_filter.mp hy).2
    omega
  · dsimp only
    rw [if_pos rfl]
  · intro y hy
    dsimp only
    rw [if_neg hy]
  · have hyiaft : yri ∈ cols.filter (fun y => ¬ y < yri) :=
      Finset.mem_filter.mpr ⟨hyi, by omega⟩
    have herase : ∀ x ∈ (cols.filter (fun y => ¬ y < yri)).erase yri,
        (if x = yri then f yri + (cols.filter (fun y => y < yri)).sum f
          else f x) = f x := by
      intro x hx
      rw [if_neg (Finset.ne_of_mem_erase hx)]
    calc (cols.filter (fun y => ¬ y < yri)).sum
          (fun y => if y = yri then
            f yri + (cols.filter (fun y => y < yri)).sum f else f y)
        = ((cols.filter (fun y => ¬ y < yri)).erase yri).sum
            (fun y => if y = yri then
              f yri + (cols.filter (fun y => y < yri)).sum f else f y) +
            (if yri = yri then
              f yri + (cols.filter (fun y => y < yri)).sum f else f yri) :=
          (Finset.sum_erase_add _ _ hyiaft).symm
      _ = ((cols.filter (fun y => ¬ y < yri)).erase yri).sum f +
            (f yri + (cols.filter (fun y => y < yri)).sum f) := by
          rw [Finset.sum_congr rfl herase, if_pos rfl]
      _ = (((cols.filter (fun y => ¬ y < yri)).erase yri).sum f + f yri) +
            (cols.filter (fun y => y < yri)).sum f := by ring
      _ = (cols.filter (fun y => ¬ y < yri)).sum f +
            (cols.filter (fun y => y < yri)).sum f := by
          rw [Finset.sum_erase_add _ _ hyiaft]
      _ = cols.sum f := by
          rw [add_comm]
          exact Finset.sum_filter_add_sum_filter_not cols (fun y => y < yri) f

/-- Concrete capex row used by the C7 witness: 5 in 2018 (pre-period),
10 in 2020 and 7 elsewhere. -/
def capexRowExample : ℤ → ℚ :=
  fun y => if y = 2018 then 5 else if y = 2020 then 10 else 7

/-- C7 witness: the theorem at init year 2020 on a row with columns
2018, 2020, 2021. -/
theorem claim_C7_witness :
    ∃ cols2 f2,
      wrangleCapex 2020 {2018, 2020, 2021} capexRowExample =
        some (cols2, f2) ∧
      (∀ y ∈ cols2, (2020 : ℤ) ≤ y) ∧
      f2 2020 = capexRowExample 2020 +
        (({2018, 2020, 2021} : Finset ℤ).filter
          (fun y => y < (2020 : ℤ))).sum capexRowExample ∧
      (∀ y : ℤ, y ≠ 2020 → f2 y = capexRowExample y) ∧
      cols2.sum f2 = ({2018, 2020, 2021} : Finset ℤ).sum capexRowExample :=
  claim_C7_wrangle_capex 2020 {2018, 2020, 2021} capexRowExample
    (by decide) (by decide)

/-- Embedding of one elementwise division of `_compute_travel_time_matrix`
with float semantics: `T = L / V`; dividing a non-zero length by zero
velocity gives ±infinity, which `replace([inf, -inf], 0.0)` turns into 0
(`some 0`); `0 / 0` gives NaN (`none`), which survives the replacement
and is removed by `dropna`. -/
def safeDiv (l v : ℚ) : Option ℚ :=
  if v = 0 then (if l = 0 then none else some 0) else some (l / v)

/-- Travel-time row of `_compute_travel_time_matrix`: elementwise
`safeDiv` over a section's lengths and velocities; a row containing any
NaN entry is dropped by `dropna`, other rows keep all their
post-replacement values. -/
def rowTravelTime (ls vs : List ℚ) : Option (List ℚ) :=
  let ts := List.zipWith safeDiv ls vs
  if ts.all Option.isSome then some ts.reduceOption else none

/-- Embedding of `_compute_travel_time_matrix` over the whole frame:
each road-section row of lengths and velocities yields a travel-time row
unless dropped. -/
def computeTravelTime (rows : List (ℤ × List ℚ × List ℚ)) :
    List (ℤ × List ℚ) :=
  rows.filterMap
    (fun r => (rowTravelTime r.2.1 r.2.2).map (fun ts => (r.1, ts)))

lemma zipWith_safeDiv_eq (ls : List ℚ) : ∀ (vs : List ℚ),
    (∀ p ∈ List.zip ls vs, ¬ (p.1 = 0 ∧ p.2 = 0)) →
    List.zipWith safeDiv ls vs =
      (List.zipWith (fun l v => if v = 0 then 0 else l / v) ls vs).map some := by
  induction ls with
  | nil => intro vs _; simp
  | cons l ls ih =>
    intro vs h
    cases vs with
    | nil => simp
    | cons v vs =>
      have hh : ¬ (l = 0 ∧ v = 0) := h (l, v) (by simp)
      have ht : ∀ p ∈ List.zip ls vs, ¬ (p.1 = 0 ∧ p.2 = 0) := by
        intro p hp
        exact h p (by simp [hp])
      simp only [List.zipWith_cons_cons, List.map_cons, ih vs ht]
      congr 1
      unfold safeDiv
      split_ifs with hv hl
      · exact absurd ⟨hl, hv⟩ hh
      · rfl
      · rfl

lemma zipWith_safeDiv_none (ls : List ℚ) : ∀ (vs : List ℚ),
    (∃ p ∈ List.zip ls vs, p.1 = 0 ∧ p.2 = 0) →
    (List.zipWith safeDiv ls vs).all Option.isSome = false := by
  induction ls with
  | nil =>
    intro vs h
    rcases h with ⟨p, hp, _⟩
    simp at hp
  | cons l ls ih =>
    intro vs h
    cases vs with
    | nil =>
      rcases h with ⟨p, hp, _⟩
      simp at hp
    | cons v vs =>
      rcases h with ⟨p, hp, hz⟩
      rw [List.zip_cons_cons, List.mem_cons] at hp
      rcases hp with rfl | hp
      · obtain ⟨h1, h2⟩ := hz
        simp only at h1 h2
        subst h1
        subst h2
        simp [List.zipWith_cons_cons, List.all_cons, safeDiv]
      · have hrest := ih vs ⟨p, hp, hz⟩
        simp [List.zipWith_cons_cons, List.all_cons, hrest]

lemma reduceOption_map_some (l : List ℚ) : (l.map some).reduceOption = l := by
  induction l with
  | nil => rfl
  | cons a t ih => simp [List.reduceOption_cons_of_some, ih]

lemma rowTravelTime_of_no_nan (ls vs : List ℚ)
    (h : ∀ p ∈ List.zip ls vs, ¬ (p.1 = 0 ∧ p.2 = 0)) :
    rowTravelTime ls vs =
      some (List.zipWith (fun l v => if v = 0 then 0 else l / v) ls vs) := by
  unfold rowTravelTime
  rw [zipWith_safeDiv_eq ls vs h]
  have hall : ((List.zipWith (fun l v => if v = 0 then 0 else l / v) ls vs).map
      some).all Option.isSome = true := by
    simp [List.all_eq_true]
  rw [if_pos hall, reduceOption_map_some]

lemma rowTravelTime_of_nan (ls vs : List ℚ)
    (h : ∃ p ∈ List.zip ls vs, p.1 = 0 ∧ p.2 = 0) :
    rowTravelTime ls vs = none := by
  unfold rowTravelTime
  rw [if_neg]
  simp [zipWith_safeDiv_none ls vs h]

/-- C8. Computing the travel-time matrices never fails on a zero
velocity: a section row whose entries never divide 0 by 0 is kept with
every entry `L / V`, any infinity from `L / 0` (with `L ≠ 0`) replaced
by 0; a row with a `0 / 0` entry (NaN after the replacement) is dropped
from the matrix rather than raising an error. -/
theorem claim_C8_travel_time (ls vs : List ℚ) :
    ((∀ p ∈ List.zip ls vs, ¬ (p.1 = 0 ∧ p.2 = 0)) →
      rowTravelTime ls vs =
        some (List.zipWith (fun l v => if v = 0 then 0 else l / v) ls vs)) ∧
    ((∃ p ∈ List.zip ls vs, p.1 = 0 ∧ p.2 = 0) →
      rowTravelTime ls vs = none) ∧
    (∀ (rows : List (ℤ × List ℚ × List ℚ)) (i : ℤ),
      (i, ls, vs) ∈ rows →
      (∀ p ∈ List.zip ls vs, ¬ (p.1 = 0 ∧ p.2 = 0)) →
      (i, List.zipWith (fun l v => if v = 0 then 0 else l / v) ls vs) ∈
        computeTravelTime rows) := by
  refine ⟨rowTravelTime_of_no_nan ls vs, rowTravelTime_of_nan ls vs, ?_⟩
  intro rows i hmem h
  refine List.mem_filterMap.mpr ⟨(i, ls, vs), hmem, ?_⟩
  dsimp only
  rw [rowTravelTime_of_no_nan ls vs h]
  rfl

/-- C8 witness: the section row with lengths `[10, 0]` and velocities
`[0, 2]` (an infinity in the first entry, a plain division in the
second) is kept with the infinity replaced by 0. -/
theorem claim_C8_witness :
    ((1 : ℤ), List.zipWith (fun l v => if v = 0 then 0 else l / v)
        [(10 : ℚ), 0] [(0 : ℚ), 2]) ∈
      computeTravelTime [(1, ([10, 0], [0, 2]))] :=
  (claim_C8_travel_time [(10 : ℚ), 0] [(0 : ℚ), 2]).2.2
    [(1, ([10, 0], [0, 2]))] 1 (by simp) (by decide)

/-- State of the `RoadCBA` engine relevant to parameter preparation:
the accident-rates flag, the raw and cleaned parameter tables
(abstracted to their value series) and the cumulative CPI index
(`none` until `_wrangle_cpi` has built it). -/
structure EngineState where
  accLoaded : Bool
  paramsRaw : List (String × List ℚ)
  paramsClean : List (String × List ℚ)
  cpiIdx : Option (ℤ → ℚ)

/-- Embedding of `read_custom_accident_rates`: stores the supplied table
under `r_acc_c` in the raw parameters and sets `acc_loaded = True`. -/
def readCustomAccidentRates (s : EngineState) (rates : List ℚ) :
    EngineState :=
  { s with
    paramsRaw := ("r_acc_c", rates) :: s.paramsRaw
    accLoaded := true }

/-- Embedding of `prepare_parameters`: when `acc_loaded` is false it only
prints a message and returns, touching no state; otherwise it runs
`_clean_parameters`, `_wrangle_cpi`, `_adjust_price_level` and
`_wrangle_parameters` in that order. The four stages enter as function
parameters: the guard returns before any of them runs, and the claim
concerns only that early return. -/
def prepareParameters
    (clean wcpi adjust wrangle : EngineState → EngineState)
    (s : EngineState) : EngineState :=
  if s.accLoaded then wrangle (adjust (wcpi (clean s))) else s

/-- C10. If `read_custom_accident_rates` has never been called
(`acc_loaded` is false, whereas any call would have set it to true),
`prepare_parameters` returns without error and without modifying any
engine state: the whole state is returned unchanged, so in particular
`params_clean` stays as it was (empty on a fresh engine) and the
cumulative CPI index is not built. -/
theorem claim_C10_prepare_guard
    (clean wcpi adjust wrangle : EngineState → EngineState)
    (s : EngineState) (h : s.accLoaded = false) :
    prepareParameters clean wcpi adjust wrangle s = s ∧
    (prepareParameters clean wcpi adjust wrangle s).paramsClean =
      s.paramsClean ∧
    (prepareParameters clean wcpi adjust wrangle s).cpiIdx = s.cpiIdx ∧
    (∀ rates, (readCustomAccidentRates s rates).accLoaded = true) := by
  have he : prepareParameters clean wcpi adjust wrangle s = s := by
    unfold prepareParameters
    rw [h]
    simp
  exact ⟨he, by rw [he], by rw [he], fun _ => rfl⟩

/-- Fresh engine state used by the C10 witness: accident rates not
loaded, no cleaned parameters, no CPI index. -/
def engineStateFresh : EngineState :=
  { accLoaded := false, paramsRaw := [], paramsClean := [], cpiIdx := none }

/-- C10 witness: the guard theorem applied to a fresh engine with
identity stages. -/
theorem claim_C10_witness :
    prepareParameters (fun s => s) (fun s => s) (fun s => s) (fun s => s)
        engineStateFresh = engineStateFresh ∧
    engineStateFresh.paramsClean = [] :=
  ⟨(claim_C10_prepare_guard (fun s => s) (fun s => s) (fun s => s)
      (fun s => s) engineStateFresh rfl).1, rfl⟩
